import Mathlib

/-!
Shallow embedding of the timed-text alignment and frame-scheduling engine
(Cue Parser, Track Aligner, Frame Scheduler, Frame Pipeline Driver).

Source correspondence:
* `TranscriptItem` — `src/types.ts` (`text : string[]`, `offset`/`duration`
  in milliseconds).  Milliseconds are modelled as `ℚ` because the Frame
  Scheduler divides them by `frameDuration = 1000 / fps`, which is exact
  rational arithmetic in the model.
* `parseVTT` — `YouTubeExtractor.parseVTT`.
* `mergeTranscripts` — the merge step of `YouTubeExtractor.downloadTranscript`
  (base-track initialisation plus one pass per secondary language).
* `frameToItem`, `totalFramesOf` — the schedule construction inside
  `VideoGenerator.generateFrames`.
* `runFrames` / `generateFramesRun` — the sequential frame loop of
  `VideoGenerator.generateFrames`, with the filesystem abstracted as a
  predicate `Nat → Bool` on (0-based) frame indices and the Renderer and
  progress callback recorded as event lists.
* `renderFrame` — the observable branch structure of
  `VideoGenerator.renderFrame` (blank background vs. drawn text lines).
-/

/-- `src/types.ts` `TranscriptItem`: a cue / timeline entry.  `text` starts
as a one-element list when produced by the parser and grows to one slot per
language after merging. -/
structure TranscriptItem where
  text : List String
  offset : ℚ
  duration : ℚ
  deriving DecidableEq, Repr

namespace Engine

/-! ### Track Aligner (merge step of `downloadTranscript`) -/

/-- Midpoint of a base cue: `baseItem.offset + (baseItem.duration / 2)`. -/
def baseMidOf (b : TranscriptItem) : ℚ :=
  b.offset + b.duration / 2

/-- The containment test of the `find` callback:
`baseMid >= item.offset && baseMid <= (item.offset + item.duration)`. -/
def midContained (baseMid : ℚ) (it : TranscriptItem) : Bool :=
  decide (baseMid ≥ it.offset) && decide (baseMid ≤ it.offset + it.duration)

/-- Text pushed for one secondary track and one base item:
`match && match.text && match.text.length > 0 ? match.text[0] : ''`. -/
def slotText (m : Option TranscriptItem) : String :=
  match m with
  | some it => if 0 < it.text.length then it.text.headD ("") else ""
  | none => ""

/-- The slot contributed by secondary track `track` for base item `b`:
`currentLang.items.find(item => baseMid >= item.offset && baseMid <= item.offset + item.duration)`
followed by the text push. -/
def slotFor (b : TranscriptItem) (track : List TranscriptItem) : String :=
  slotText (track.find? (midContained (baseMidOf b)))

/-- Base-track initialisation:
`baseTranscript.items.map(item => ({ text: [item.text[0]], offset, duration }))`.
`headD ""` stands in for the JS `text[0]` read, which the parser guarantees
is defined (parser items always carry a non-empty `text`). -/
def initMerged (base : List TranscriptItem) : List TranscriptItem :=
  base.map (fun it => { text := [it.text.headD ("")], offset := it.offset, duration := it.duration })

/-- One pass of the outer `for (let i = 1; ...)` loop: append the matching
slot of `track` to every merged item. -/
def addLang (merged : List TranscriptItem) (track : List TranscriptItem) : List TranscriptItem :=
  merged.map (fun b => { b with text := b.text ++ [slotFor b track] })

/-- The merge step of `downloadTranscript` (lines 160–191): the first track
is the base for timing; every further track contributes one text slot per
base item.  An empty track list corresponds to the early
`transcripts.length === 0` return of `[]`. -/
def mergeTranscripts (tracks : List (List TranscriptItem)) : List TranscriptItem :=
  match tracks with
  | [] => []
  | base :: rest => rest.foldl addLang (initMerged base)

/-! ### Frame Scheduler (`generateFrames`, schedule construction) -/

/-- `frameDuration = 1000 / fps`. -/
def frameDurationMs (fps : ℚ) : ℚ := 1000 / fps

/-- `startFrame = Math.floor(item.offset / frameDuration)`. -/
def startFrameOf (fd : ℚ) (it : TranscriptItem) : ℤ :=
  ⌊it.offset / fd⌋

/-- `endFrame = Math.ceil((item.offset + item.duration) / frameDuration)`. -/
def endFrameOf (fd : ℚ) (it : TranscriptItem) : ℤ :=
  ⌈(it.offset + it.duration) / fd⌉

/-- The frame indices the inner `for (let frame = startFrame; frame < endFrame; frame++)`
loop visits for one item, in order. -/
def frameRange (fd : ℚ) (it : TranscriptItem) : List ℤ :=
  (List.range (endFrameOf fd it - startFrameOf fd it).toNat).map
    (fun i : ℕ => startFrameOf fd it + (i : ℤ))

/-- One `frameToItem.set` site guarded by
`!frameToItem.has(frame) || frameToItem.get(frame)!.offset < item.offset`.
The JS `Map` is only ever read through `has`/`get`, so it is embedded as a
function `ℤ → Option TranscriptItem`. -/
def claimFrame (it : TranscriptItem) (m : ℤ → Option TranscriptItem) (k : ℤ) :
    ℤ → Option TranscriptItem :=
  match m k with
  | none => fun x => if x = k then some it else m x
  | some prev =>
      if prev.offset < it.offset then (fun x => if x = k then some it else m x) else m

/-- Insert one item at every frame of its range. -/
def insertItem (fd : ℚ) (m : ℤ → Option TranscriptItem) (it : TranscriptItem) :
    ℤ → Option TranscriptItem :=
  (frameRange fd it).foldl (claimFrame it) m

/-- The full `frameToItem` map built by the outer `for (const item of transcript)`
loop. -/
def frameToItem (fd : ℚ) (transcript : List TranscriptItem) : ℤ → Option TranscriptItem :=
  transcript.foldl (insertItem fd) (fun _ => none)

/-- `totalDuration = lastItem.offset + lastItem.duration` (undefined-behaviour
crash on an empty transcript in JS; the model returns `0`, and every theorem
about it carries a non-emptiness hypothesis). -/
def totalDurationOf (transcript : List TranscriptItem) : ℚ :=
  match transcript.getLast? with
  | some it => it.offset + it.duration
  | none => 0

/-- `totalFrames = Math.ceil(totalDuration / frameDuration)`. -/
def totalFramesOf (fd : ℚ) (transcript : List TranscriptItem) : ℤ :=
  ⌈totalDurationOf transcript / fd⌉

/-- Look up the schedule at 1-based frame number `i` (the driver reads the
map at `frameNumber = i - 1` and reports `frameNumber + 1` outward). -/
def frameLookup (m : ℤ → Option TranscriptItem) (i : ℕ) : Option TranscriptItem :=
  m ((i : ℤ) - 1)

/-! ### Cue Parser (`parseVTT`)

The header regex is
`/(\d{2}):(\d{2}):(\d{2})\.(\d{3}) --> (\d{2}):(\d{2}):(\d{2})\.(\d{3})/`,
an unanchored search for a fixed-shape pattern, embedded as a character-level
matcher tried at every start position left to right. -/

/-- Consume exactly `n` digits, returning them and the rest. -/
def takeDigits : Nat → List Char → Option (List Char × List Char)
  | 0, cs => some ([], cs)
  | _ + 1, [] => none
  | n + 1, c :: cs =>
      if c.isDigit then
        (takeDigits n cs).map (fun p => (c :: p.1, p.2))
      else none

/-- Consume one expected literal character. -/
def expectChar (t : Char) : List Char → Option (List Char)
  | [] => none
  | c :: cs => if c = t then some cs else none

/-- Consume an expected literal character sequence. -/
def expectChars : List Char → List Char → Option (List Char)
  | [], cs => some cs
  | t :: ts, cs => (expectChar t cs).bind (expectChars ts)

/-- Digit string to number, as `parseInt` reads a digit group. -/
def digitsToNat (ds : List Char) : Nat :=
  ds.foldl (fun acc c => 10 * acc + (c.toNat - 48)) 0

/-- One timestamp `\d{2}:\d{2}:\d{2}\.\d{3}`: hours, minutes, seconds,
milliseconds and the remaining input. -/
def matchTimestamp (cs : List Char) : Option (Nat × Nat × Nat × Nat × List Char) := do
  let (h, cs) ← takeDigits 2 cs
  let cs ← expectChar ':' cs
  let (m, cs) ← takeDigits 2 cs
  let cs ← expectChar ':' cs
  let (s, cs) ← takeDigits 2 cs
  let cs ← expectChar '.' cs
  let (ms, cs) ← takeDigits 3 cs
  pure (digitsToNat h, digitsToNat m, digitsToNat s, digitsToNat ms, cs)

/-- The eight captured groups of one header match, already `parseInt`-ed. -/
structure HeaderGroups where
  startH : Nat
  startM : Nat
  startS : Nat
  startMs : Nat
  endH : Nat
  endM : Nat
  endS : Nat
  endMs : Nat
  deriving DecidableEq, Repr

/-- Try the whole header pattern at the current position. -/
def matchHeaderAt (cs : List Char) : Option HeaderGroups := do
  let (h1, m1, s1, ms1, cs) ← matchTimestamp cs
  let cs ← expectChars ([' ', '-', '-', '>', ' ']) cs
  let (h2, m2, s2, ms2, _) ← matchTimestamp cs
  pure ⟨h1, m1, s1, ms1, h2, m2, s2, ms2⟩

/-- Unanchored regex search: try each start position left to right. -/
def findHeader : List Char → Option HeaderGroups
  | [] => none
  | c :: cs =>
      match matchHeaderAt (c :: cs) with
      | some g => some g
      | none => findHeader cs

/-- `line.replace(/<[^>]*>/g, '')`: drop every `<...>` span that has a
closing `>`; a `<` with no later `>` never matches and stays.  The second
argument buffers the characters since the last unmatched `<` (in reverse):
on `>` the whole buffered span is discarded; at end of input an unclosed
span is emitted verbatim. -/
def stripTagsGo : List Char → Option (List Char) → List Char
  | [], none => []
  | [], some buf => buf.reverse
  | c :: cs, none =>
      if c = '<' then stripTagsGo cs (some [c])
      else c :: stripTagsGo cs none
  | c :: cs, some buf =>
      if c = '>' then stripTagsGo cs none
      else stripTagsGo cs (some (c :: buf))

/-- Strip every complete markup tag from a line. -/
def stripTagsAux (l : List Char) : List Char :=
  stripTagsGo l none

/-- JS `content.split('\n')` over the character list (structural, so that
concrete documents evaluate). -/
def splitLinesAux : List Char → List Char → List (List Char)
  | [], acc => [acc.reverse]
  | c :: cs, acc =>
      if c = '\n' then acc.reverse :: splitLinesAux cs []
      else splitLinesAux cs (c :: acc)

/-- Split a document into lines at every newline character. -/
def splitLines (s : List Char) : List (List Char) :=
  splitLinesAux s []

/-- JS `trim()`: drop whitespace from both ends of a line. -/
def trimChars (l : List Char) : List Char :=
  ((l.dropWhile Char.isWhitespace).reverse.dropWhile Char.isWhitespace).reverse

/-- Tag stripping plus the trailing `.trim()` applied to each text line. -/
def cleanTextLine (l : List Char) : List Char :=
  trimChars (stripTagsAux l)

/-- Milliseconds of one timestamp: `(h*3600 + m*60 + s)*1000 + ms`. -/
def tsMs (h m s ms : Nat) : Nat :=
  (h * 3600 + m * 60 + s) * 1000 + ms

/-- `textLines.join(' ')`. -/
def joinSpace (ts : List (List Char)) : String :=
  String.mk (List.intercalate ([' ']) ts)

/-- The cue pushed for one finished block: one cue if at least one cleaned
text line survived, none otherwise.  `currentEnd - currentStart` is exact
integer arithmetic on JS numbers, so it is taken in `ℤ` and cast into the
`ℚ` field. -/
def emitCue (g : HeaderGroups) (texts : List (List Char)) : List TranscriptItem :=
  let start := tsMs g.startH g.startM g.startS g.startMs
  let stop := tsMs g.endH g.endM g.endS g.endMs
  if texts ≠ [] then
    [{ text := [joinSpace texts],
       offset := (start : ℚ),
       duration := (((stop : ℤ) - (start : ℤ) : ℤ) : ℚ) }]
  else []

/-- The main `for (let i = 0; ...)` loop of `parseVTT` over the split lines,
as a single structural pass.  State `none` is the scanning phase (lines
without a header match are skipped); state `some (g, texts)` is the inner
`while (j < lines.length && lines[j].trim() !== '')` collection loop after
header `g`, with the cleaned non-empty text lines collected so far; a blank
line (or end of input) terminates the block and emits its cue. -/
def parseVTTGo : List (List Char) → Option (HeaderGroups × List (List Char)) → List TranscriptItem
  | [], none => []
  | [], some (g, texts) => emitCue g texts
  | l :: rest, none =>
      match findHeader (trimChars l) with
      | none => parseVTTGo rest none
      | some g => parseVTTGo rest (some (g, []))
  | l :: rest, some (g, texts) =>
      if trimChars l = [] then emitCue g texts ++ parseVTTGo rest none
      else parseVTTGo rest (some (g, texts ++ (if cleanTextLine l ≠ [] then [cleanTextLine l] else [])))

/-- `parseVTT`: split the document on newlines and run the loop. -/
def parseVTT (vttContent : String) : List TranscriptItem :=
  parseVTTGo (splitLines vttContent.data) none

/-! ### Renderer (`renderFrame`) -/

/-- The two observable outcomes of `renderFrame`: the early return with only
the background painted, or a canvas with text drawn on it.  The drawn case
records the `textLines` argument; the pixel-level canvas output is outside
the model. -/
inductive FrameImage where
  | blank
  | image (textLines : List String)
  deriving DecidableEq, Repr

/-- `renderFrame`: returns the background-only buffer when
`!textLines || textLines.length === 0 || textLines.every(t => !t || t.trim() === '')`,
otherwise draws the lines. -/
def renderFrame (textLines : List String) : FrameImage :=
  if textLines.isEmpty || textLines.all (fun t => t.trim = "") then .blank
  else .image textLines

/-! ### Frame Pipeline Driver (`generateFrames`, frame loop) -/

/-- `String(frameNumber + 1).padStart(8, '0')`. -/
def padStart (s : String) (n : Nat) (c : Char) : String :=
  if n ≤ s.length then s else String.mk (List.replicate (n - s.length) c) ++ s

/-- `join(framesDir, "frame_" + String(frameNumber + 1).padStart(8, "0") + ".png")`
for the 0-based frame number `n`. -/
def framePath (framesDir : String) (n : Nat) : String :=
  framesDir ++ ("/") ++ ("frame_") ++ padStart (toString (n + 1)) 8 '0' ++ (".png")

/-- Observable trace of one `generateFrames` frame loop: the Renderer
invocations (1-based frame number and the `textLines` argument), the
progress events `(frameNumber + 1, totalFrames, framePath)` in emission
order, and the filesystem after the run.  The filesystem is the set of
0-based frame numbers whose artifact exists, as a predicate. -/
structure DriveResult where
  renders : List (Nat × List String)
  progress : List (Nat × Nat × String)
  fsAfter : Nat → Bool

/-- The `textLines` the driver passes to the Renderer at 0-based frame `n`:
`item ? item.text : []`. -/
def driverTextLines (sched : ℤ → Option TranscriptItem) (n : Nat) : List String :=
  match sched (n : ℤ) with
  | some it => it.text
  | none => []

/-- The sequential `for (let frameNumber = 0; frameNumber < totalFrames; ...)`
loop, processing the given frame numbers in order: look up the schedule,
take the item's `text` (or `[]`), and either skip (artifact exists: progress
only) or render, write and report progress. -/
def runFrames (sched : ℤ → Option TranscriptItem) (total : Nat) (dir : String) :
    List Nat → (Nat → Bool) → DriveResult
  | [], fs => ⟨[], [], fs⟩
  | n :: rest, fs =>
      let textLines := driverTextLines sched n
      let path := framePath dir n
      if fs n then
        let r := runFrames sched total dir rest fs
        ⟨r.renders, (n + 1, total, path) :: r.progress, r.fsAfter⟩
      else
        let r := runFrames sched total dir rest (fun m => if m = n then true else fs m)
        ⟨(n + 1, textLines) :: r.renders, (n + 1, total, path) :: r.progress, r.fsAfter⟩

/-- `generateFrames`, assembled: compute `frameDuration`, `totalFrames` and
`frameToItem`, then drive frames `0 .. totalFrames - 1` over the initial
filesystem `fs`. -/
def generateFramesRun (transcript : List TranscriptItem) (dir : String) (fps : ℚ)
    (fs : Nat → Bool) : DriveResult :=
  let fd := frameDurationMs fps
  let total := (totalFramesOf fd transcript).toNat
  runFrames (frameToItem fd transcript) total dir (List.range total) fs

/-! ### Derived characterizations (proof infrastructure, not source) -/

/-- The effect of one guarded `set` on the value stored at the claimed frame:
keep the stored item unless the frame is free or the stored offset is
strictly smaller. -/
def mergeClaim (cur : Option TranscriptItem) (it : TranscriptItem) : Option TranscriptItem :=
  match cur with
  | none => some it
  | some prev => if prev.offset < it.offset then some it else some prev

/-- Per-frame view of the whole schedule construction: fold the items in
transcript order, merging each one that claims frame `k`. -/
def resolve (fd : ℚ) (transcript : List TranscriptItem) (k : ℤ) : Option TranscriptItem :=
  transcript.foldl (fun acc it => if k ∈ frameRange fd it then mergeClaim acc it else acc) none

theorem claimFrame_apply_ne (it : TranscriptItem) (m : ℤ → Option TranscriptItem) (k x : ℤ)
    (hx : x ≠ k) : claimFrame it m k x = m x := by
  unfold claimFrame
  cases h : m k with
  | none => simp [hx]
  | some prev =>
      by_cases hlt : prev.offset < it.offset
      · simp [hlt, hx]
      · simp [hlt]

theorem claimFrame_apply_self (it : TranscriptItem) (m : ℤ → Option TranscriptItem) (k : ℤ) :
    claimFrame it m k k = mergeClaim (m k) it := by
  unfold claimFrame mergeClaim
  cases h : m k with
  | none => simp
  | some prev => by_cases hlt : prev.offset < it.offset <;> simp [hlt, h]

theorem mergeClaim_isSome (cur : Option TranscriptItem) (it : TranscriptItem) :
    (mergeClaim cur it).isSome := by
  cases cur with
  | none => simp [mergeClaim]
  | some prev => by_cases hlt : prev.offset < it.offset <;> simp [mergeClaim, hlt]

theorem mergeClaim_mergeClaim (cur : Option TranscriptItem) (it : TranscriptItem) :
    mergeClaim (mergeClaim cur it) it = mergeClaim cur it := by
  cases cur with
  | none => simp [mergeClaim]
  | some prev => by_cases hlt : prev.offset < it.offset <;> simp [mergeClaim, hlt]

theorem foldl_claimFrame_apply (it : TranscriptItem) (L : List ℤ) :
    ∀ (m : ℤ → Option TranscriptItem) (k : ℤ),
      (L.foldl (claimFrame it) m) k = if k ∈ L then mergeClaim (m k) it else m k := by
  induction L with
  | nil => intro m k; simp
  | cons f L ih =>
      intro m k
      simp only [List.foldl_cons]
      rw [ih]
      by_cases hk : k = f
      · subst hk
        by_cases hmem : k ∈ L
        · simp [hmem, claimFrame_apply_self, mergeClaim_mergeClaim]
        · simp [hmem, claimFrame_apply_self]
      · rw [claimFrame_apply_ne it m f k hk]
        by_cases hmem : k ∈ L
        · simp [hmem, hk]
        · simp [hmem, hk]

theorem foldl_insertItem_apply (fd : ℚ) (ts : List TranscriptItem) :
    ∀ (m : ℤ → Option TranscriptItem) (k : ℤ),
      (ts.foldl (insertItem fd) m) k =
        ts.foldl (fun acc it => if k ∈ frameRange fd it then mergeClaim acc it else acc) (m k) := by
  induction ts with
  | nil => intro m k; simp
  | cons it ts ih =>
      intro m k
      simp only [List.foldl_cons]
      rw [ih]
      congr 1
      rw [insertItem, foldl_claimFrame_apply]

/-- The schedule map agrees with its per-frame characterization. -/
theorem frameToItem_eq_resolve (fd : ℚ) (ts : List TranscriptItem) (k : ℤ) :
    frameToItem fd ts k = resolve fd ts k := by
  rw [frameToItem, resolve, foldl_insertItem_apply]

theorem mem_frameRange {fd : ℚ} {it : TranscriptItem} {k : ℤ} :
    k ∈ frameRange fd it ↔ startFrameOf fd it ≤ k ∧ k < endFrameOf fd it := by
  simp only [frameRange, List.mem_map, List.mem_range]
  constructor
  · rintro ⟨i, hi, rfl⟩
    omega
  · rintro ⟨h1, h2⟩
    exact ⟨(k - startFrameOf fd it).toNat, by omega, by omega⟩

theorem foldl_resolveStep_isSome (fd : ℚ) (k : ℤ) (ts : List TranscriptItem) :
    ∀ acc : Option TranscriptItem, acc.isSome →
      (ts.foldl (fun acc it => if k ∈ frameRange fd it then mergeClaim acc it else acc) acc).isSome := by
  induction ts with
  | nil => intro acc h; simpa using h
  | cons it ts ih =>
      intro acc h
      simp only [List.foldl_cons]
      by_cases hk : k ∈ frameRange fd it
      · exact ih _ (by simpa [hk] using mergeClaim_isSome acc it)
      · exact ih _ (by simpa [hk] using h)

theorem foldl_resolveStep_isSome_of_claim (fd : ℚ) (k : ℤ) (ts : List TranscriptItem) :
    ∀ (acc : Option TranscriptItem) (it : TranscriptItem), it ∈ ts → k ∈ frameRange fd it →
      (ts.foldl (fun acc it => if k ∈ frameRange fd it then mergeClaim acc it else acc) acc).isSome := by
  induction ts with
  | nil => intro acc it hit _; cases hit
  | cons x ts ih =>
      intro acc it hit hk
      simp only [List.foldl_cons]
      rcases List.mem_cons.mp hit with h | h
      · subst h
        rw [if_pos hk]
        exact foldl_resolveStep_isSome fd k ts _ (mergeClaim_isSome acc it)
      · exact ih _ it h hk

theorem resolve_isSome_of_claim (fd : ℚ) (ts : List TranscriptItem) (k : ℤ)
    (it : TranscriptItem) (hit : it ∈ ts) (hk : k ∈ frameRange fd it) :
    (resolve fd ts k).isSome := by
  rw [resolve]
  exact foldl_resolveStep_isSome_of_claim fd k ts none it hit hk

theorem resolve_eq_none (fd : ℚ) (ts : List TranscriptItem) (k : ℤ)
    (h : ∀ it ∈ ts, k ∉ frameRange fd it) : resolve fd ts k = none := by
  rw [resolve]
  induction ts with
  | nil => simp
  | cons x ts ih =>
      simp only [List.foldl_cons, if_neg (h x (List.mem_cons_self x ts))]
      exact ih (fun it hit => h it (List.mem_cons_of_mem x hit))

theorem foldl_resolveStep_mem (fd : ℚ) (k : ℤ) (ts : List TranscriptItem) :
    ∀ (acc : Option TranscriptItem) (e : TranscriptItem),
      ts.foldl (fun acc it => if k ∈ frameRange fd it then mergeClaim acc it else acc) acc = some e →
      acc = some e ∨ (e ∈ ts ∧ k ∈ frameRange fd e) := by
  induction ts with
  | nil => intro acc e h; exact Or.inl (by simpa using h)
  | cons x ts ih =>
      intro acc e h
      simp only [List.foldl_cons] at h
      rcases ih _ e h with h2 | h2
      · by_cases hk : k ∈ frameRange fd x
        · rw [if_pos hk] at h2
          cases acc with
          | none =>
              have hex : x = e := by simpa [mergeClaim] using h2
              subst hex
              exact Or.inr ⟨List.mem_cons_self x ts, hk⟩
          | some prev =>
              by_cases hlt : prev.offset < x.offset
              · have hex : x = e := by simpa [mergeClaim, hlt] using h2
                subst hex
                exact Or.inr ⟨List.mem_cons_self x ts, hk⟩
              · have hpe : prev = e := by simpa [mergeClaim, hlt] using h2
                exact Or.inl (by rw [hpe])
        · rw [if_neg hk] at h2
          exact Or.inl h2
      · exact Or.inr ⟨List.mem_cons_of_mem x h2.1, h2.2⟩

/-- Every stored schedule value comes from a transcript item that claims the
frame. -/
theorem resolve_mem_claims (fd : ℚ) (ts : List TranscriptItem) (k : ℤ) (e : TranscriptItem)
    (h : resolve fd ts k = some e) : e ∈ ts ∧ k ∈ frameRange fd e := by
  rw [resolve] at h
  rcases foldl_resolveStep_mem fd k ts none e h with h2 | h2
  · cases h2
  · exact h2

/-- One base item after appending the slots of all secondary tracks, in
order. -/
def addSlots (b : TranscriptItem) (rest : List (List TranscriptItem)) : TranscriptItem :=
  rest.foldl (fun x track => { x with text := x.text ++ [slotFor x track] }) b

theorem foldl_addLang_eq_map (rest : List (List TranscriptItem)) :
    ∀ merged : List TranscriptItem,
      rest.foldl addLang merged = merged.map (fun b => addSlots b rest) := by
  induction rest with
  | nil => intro merged; simp [addSlots]
  | cons t rest ih =>
      intro merged
      simp only [List.foldl_cons]
      rw [ih, addLang, List.map_map]
      rfl

theorem addSlots_offset (rest : List (List TranscriptItem)) :
    ∀ b : TranscriptItem, (addSlots b rest).offset = b.offset := by
  induction rest with
  | nil => intro b; rfl
  | cons t rest ih =>
      intro b
      show (addSlots { b with text := b.text ++ [slotFor b t] } rest).offset = b.offset
      rw [ih]

theorem addSlots_duration (rest : List (List TranscriptItem)) :
    ∀ b : TranscriptItem, (addSlots b rest).duration = b.duration := by
  induction rest with
  | nil => intro b; rfl
  | cons t rest ih =>
      intro b
      show (addSlots { b with text := b.text ++ [slotFor b t] } rest).duration = b.duration
      rw [ih]

theorem addSlots_text_length (rest : List (List TranscriptItem)) :
    ∀ b : TranscriptItem, (addSlots b rest).text.length = b.text.length + rest.length := by
  induction rest with
  | nil => intro b; simp [addSlots]
  | cons t rest ih =>
      intro b
      show (addSlots { b with text := b.text ++ [slotFor b t] } rest).text.length = _
      rw [ih]
      simp [List.length_append]
      omega

theorem mergeTranscripts_cons (base : List TranscriptItem) (rest : List (List TranscriptItem)) :
    mergeTranscripts (base :: rest) = (initMerged base).map (fun b => addSlots b rest) := by
  show rest.foldl addLang (initMerged base) = _
  rw [foldl_addLang_eq_map]

/-- `List.find?` returns the first element of the list satisfying the
predicate. -/
theorem find?_of_first {α : Type} (p : α → Bool) :
    ∀ (l : List α) (i : ℕ) (hi : i < l.length),
      p (l.get ⟨i, hi⟩) = true →
      (∀ (j : ℕ) (hj : j < l.length), j < i → ¬ p (l.get ⟨j, hj⟩) = true) →
      l.find? p = some (l.get ⟨i, hi⟩) := by
  intro l
  induction l with
  | nil => intro i hi; simp at hi
  | cons x l ih =>
      intro i hi hp hprev
      cases i with
      | zero =>
          rw [List.find?_cons_of_pos _ (by simpa using hp)]
          rfl
      | succ i =>
          have hx : ¬ p x = true := by
            have := hprev 0 (by omega) (by omega)
            simpa using this
          rw [List.find?_cons_of_neg _ (by simpa using hx)]
          simp only [List.get_cons_succ]
          exact ih i (by simpa using hi) (by simpa using hp) (fun j hj hji => by
            have := hprev (j + 1) (by omega) (by omega)
            simpa using this)

/-- The Bool containment test of the source matches the spec-side inclusive
containment predicate. -/
theorem midContained_iff (m : ℚ) (it : TranscriptItem) :
    midContained m it = true ↔ it.offset ≤ m ∧ m ≤ it.offset + it.duration := by
  simp [midContained, ge_iff_le]

theorem runFrames_progress (sched : ℤ → Option TranscriptItem) (total : Nat) (dir : String) :
    ∀ (ns : List Nat) (fs : Nat → Bool),
      (runFrames sched total dir ns fs).progress =
        ns.map (fun n => (n + 1, total, framePath dir n)) := by
  intro ns
  induction ns with
  | nil => intro fs; rfl
  | cons n rest ih =>
      intro fs
      by_cases h : fs n = true
      · simp [runFrames, h, ih]
      · simp [runFrames, h, ih]

theorem runFrames_renders_congr (sched : ℤ → Option TranscriptItem) (total : Nat) (dir : String) :
    ∀ (ns : List Nat) (fs fs2 : Nat → Bool), (∀ n ∈ ns, fs n = fs2 n) →
      (runFrames sched total dir ns fs).renders = (runFrames sched total dir ns fs2).renders := by
  intro ns
  induction ns with
  | nil => intro fs fs2 _; rfl
  | cons n rest ih =>
      intro fs fs2 hagree
      have h0 : fs n = fs2 n := hagree n (List.mem_cons_self n rest)
      by_cases h : fs n = true
      · simp only [runFrames, h, h0 ▸ h, if_true]
        exact ih fs fs2 (fun m hm => hagree m (List.mem_cons_of_mem n hm))
      · have h2 : ¬ fs2 n = true := by rw [← h0]; exact h
        simp only [runFrames, h, h2, if_false, Bool.false_eq_true]
        have := ih (fun m => if m = n then true else fs m) (fun m => if m = n then true else fs2 m)
          (fun m hm => by
            by_cases hmn : m = n
            · simp [hmn]
            · simp only [if_neg hmn]
              exact hagree m (List.mem_cons_of_mem n hm))
        rw [this]

theorem runFrames_renders_eq (sched : ℤ → Option TranscriptItem) (total : Nat) (dir : String) :
    ∀ (ns : List Nat), ns.Nodup → ∀ fs : Nat → Bool,
      (runFrames sched total dir ns fs).renders =
        (ns.filter (fun n => !fs n)).map (fun n => (n + 1, driverTextLines sched n)) := by
  intro ns
  induction ns with
  | nil => intro _ fs; rfl
  | cons n rest ih =>
      intro hnd fs
      have hn : n ∉ rest := (List.nodup_cons.mp hnd).1
      have hrest : rest.Nodup := (List.nodup_cons.mp hnd).2
      by_cases h : fs n = true
      · simp only [runFrames, h, if_true]
        rw [ih hrest fs]
        simp [List.filter_cons, h]
      · simp only [runFrames, h, if_false, Bool.false_eq_true]
        have hcg := runFrames_renders_congr sched total dir rest
          (fun m => if m = n then true else fs m) fs
          (fun m hm => by
            have : m ≠ n := fun hmn => hn (hmn ▸ hm)
            simp [this])
        rw [hcg, ih hrest fs]
        simp [List.filter_cons, h]

/-- Leading lines without a header match are skipped by the scanning
state. -/
theorem parseVTTGo_append_no_header :
    ∀ (pre lines : List (List Char)), (∀ l ∈ pre, findHeader (trimChars l) = none) →
      parseVTTGo (pre ++ lines) none = parseVTTGo lines none := by
  intro pre
  induction pre with
  | nil => intro lines _; rfl
  | cons l pre ih =>
      intro lines h
      have hl : findHeader (trimChars l) = none := h l (List.mem_cons_self l pre)
      rw [List.cons_append]
      show parseVTTGo (l :: (pre ++ lines)) none = _
      rw [parseVTTGo, hl]
      exact ih lines (fun x hx => h x (List.mem_cons_of_mem l hx))

/-- A document none of whose lines contains a header match parses to the
empty track. -/
theorem parseVTTGo_eq_nil_of_no_header (lines : List (List Char))
    (h : ∀ l ∈ lines, findHeader (trimChars l) = none) : parseVTTGo lines none = [] := by
  have h2 := parseVTTGo_append_no_header lines [] h
  rw [List.append_nil] at h2
  rw [h2]
  rfl

/-- An empty loop body: the item is iterated over no frame at all. -/
theorem frameRange_eq_nil (fd : ℚ) (it : TranscriptItem)
    (h : endFrameOf fd it ≤ startFrameOf fd it) : frameRange fd it = [] := by
  rw [frameRange]
  have h2 : (endFrameOf fd it - startFrameOf fd it).toNat = 0 := by omega
  rw [h2]
  rfl

/-- A one-iteration loop body: the item is iterated over exactly its start
frame. -/
theorem frameRange_eq_single (fd : ℚ) (it : TranscriptItem)
    (h : endFrameOf fd it = startFrameOf fd it + 1) :
    frameRange fd it = [startFrameOf fd it] := by
  rw [frameRange]
  have h2 : (endFrameOf fd it - startFrameOf fd it).toNat = 1 := by omega
  have h3 : List.range 1 = [0] := rfl
  rw [h2, h3]
  simp

theorem runFrames_fsAfter (sched : ℤ → Option TranscriptItem) (total : Nat) (dir : String) :
    ∀ (ns : List Nat) (fs : Nat → Bool) (m : Nat),
      (runFrames sched total dir ns fs).fsAfter m = (fs m || decide (m ∈ ns)) := by
  intro ns
  induction ns with
  | nil => intro fs m; simp [runFrames]
  | cons n rest ih =>
      intro fs m
      by_cases h : fs n = true
      · simp only [runFrames, h, if_true]
        rw [ih fs m]
        by_cases hmn : m = n
        · subst hmn
          simp [h]
        · simp [hmn]
      · simp only [runFrames, h, if_false, Bool.false_eq_true]
        rw [ih _ m]
        by_cases hmn : m = n
        · subst hmn
          simp
        · simp [hmn]

/-! ### Claim theorems -/

/-- C1: Track Aligner midpoint matching.  For every base cue with midpoint
`offsetMs + durationMs/2` and every secondary track, the text slot for that
track is the text of the first cue in track order with
`startMs ≤ mid ≤ endMs` (inclusive on both ends), and the empty string when
no cue qualifies; in particular base cue `{0,1000}` (midpoint 500) matches
secondary cue `{500,1500}` and misses secondary cue `{1500,2500}`. -/
theorem trackAligner_midpoint_matching (b : TranscriptItem) (track : List TranscriptItem)
    (htext : ∀ it ∈ track, it.text ≠ []) :
    (∀ (i : ℕ) (hi : i < track.length),
        ((track.get ⟨i, hi⟩).offset ≤ baseMidOf b ∧
          baseMidOf b ≤ (track.get ⟨i, hi⟩).offset + (track.get ⟨i, hi⟩).duration) →
        (∀ (j : ℕ) (hj : j < track.length), j < i →
          ¬ ((track.get ⟨j, hj⟩).offset ≤ baseMidOf b ∧
              baseMidOf b ≤ (track.get ⟨j, hj⟩).offset + (track.get ⟨j, hj⟩).duration)) →
        slotFor b track = (track.get ⟨i, hi⟩).text.headD ("")) ∧
    ((∀ it ∈ track, ¬ (it.offset ≤ baseMidOf b ∧ baseMidOf b ≤ it.offset + it.duration)) →
        slotFor b track = "") ∧
    slotFor ⟨["hello"], 0, 1000⟩ [⟨["bonjour"], 500, 1000⟩] = "bonjour" ∧
    slotFor ⟨["hello"], 0, 1000⟩ [⟨["late"], 1500, 1000⟩] = "" := by
  refine ⟨?_, ?_, ?_, ?_⟩
  · intro i hi hp hprev
    rw [slotFor, find?_of_first (midContained (baseMidOf b)) track i hi
      ((midContained_iff _ _).mpr hp)
      (fun j hj hji h => hprev j hj hji ((midContained_iff _ _).mp h))]
    have hne := htext (track.get ⟨i, hi⟩) (track.get_mem i hi)
    simp [slotText, List.length_pos.mpr hne]
    intro hx
    exact absurd hx hne
  · intro hnone
    rw [slotFor, List.find?_eq_none.mpr (fun x hx => by
      simp only [midContained_iff]
      exact hnone x hx)]
    rfl
  · rw [slotFor, List.find?_cons_of_pos]
    · rfl
    · rw [midContained_iff]
      norm_num [baseMidOf]
  · rw [slotFor, List.find?_cons_of_neg]
    · rfl
    · rw [Bool.not_eq_true, ← Bool.not_eq_true, midContained_iff]
      norm_num [baseMidOf]

/-- C1 witness: the theorem applied at the two concrete scenario inputs. -/
theorem trackAligner_midpoint_matching_witness :
    slotFor ⟨["hello"], 0, 1000⟩ [⟨["bonjour"], 500, 1000⟩] = "bonjour" ∧
    slotFor ⟨["hello"], 0, 1000⟩ [⟨["late"], 1500, 1000⟩] = "" := by
  refine ⟨?_, ?_⟩
  · exact (trackAligner_midpoint_matching ⟨["hello"], 0, 1000⟩ [⟨["bonjour"], 500, 1000⟩]
      (by decide)).2.2.1
  · exact (trackAligner_midpoint_matching ⟨["hello"], 0, 1000⟩ [⟨["late"], 1500, 1000⟩]
      (by decide)).2.2.2

/-- C3: Timeline invariants.  For every non-empty track list the merged
timeline has the base (index 0) track's length, its entries follow the base
track's cue order taking `offsetMs`/`durationMs` from the corresponding base
cue, and every entry carries one text slot per merged track. -/
theorem timeline_invariants (tracks : List (List TranscriptItem)) (h : tracks ≠ []) :
    (mergeTranscripts tracks).length = (tracks.head h).length ∧
    ∀ (j : ℕ) (hj : j < (mergeTranscripts tracks).length)
      (hj2 : j < (tracks.head h).length),
      ((mergeTranscripts tracks).get ⟨j, hj⟩).offset = ((tracks.head h).get ⟨j, hj2⟩).offset ∧
      ((mergeTranscripts tracks).get ⟨j, hj⟩).duration =
        ((tracks.head h).get ⟨j, hj2⟩).duration ∧
      ((mergeTranscripts tracks).get ⟨j, hj⟩).text.length = tracks.length := by
  cases tracks with
  | nil => exact absurd rfl h
  | cons base rest =>
      constructor
      · rw [mergeTranscripts_cons]
        simp [initMerged]
      · intro j hj hj2
        simp only [List.head_cons] at hj2 ⊢
        simp only [mergeTranscripts_cons, List.get_eq_getElem, List.getElem_map, initMerged,
          addSlots_offset, addSlots_duration, addSlots_text_length]
        refine ⟨trivial, trivial, ?_⟩
        simp only [List.length_cons, List.length_nil]
        omega

/-- C3 witness: the theorem applied to a concrete two-track input. -/
theorem timeline_invariants_witness :
    (mergeTranscripts [[⟨["hello"], 0, 1000⟩], [⟨["bonjour"], 0, 1000⟩]]).length = 1 := by
  exact (timeline_invariants [[⟨["hello"], 0, 1000⟩], [⟨["bonjour"], 0, 1000⟩]]
    (by decide)).1

/-- C2: Frame Scheduler overlap resolution.  When two timeline entries both
claim frame `k` and their offsets satisfy `o1 < o2`, the schedule maps `k`
to the entry with offset `o2`, whichever of the two orders they appear in. -/
theorem frameScheduler_overlap_resolution (fd : ℚ) (e1 e2 : TranscriptItem) (k : ℤ)
    (h1 : k ∈ frameRange fd e1) (h2 : k ∈ frameRange fd e2) (hlt : e1.offset < e2.offset) :
    frameToItem fd [e1, e2] k = some e2 ∧ frameToItem fd [e2, e1] k = some e2 := by
  constructor
  · rw [frameToItem_eq_resolve, resolve]
    simp only [List.foldl_cons, List.foldl_nil, if_pos h1, if_pos h2]
    simp [mergeClaim, hlt]
  · rw [frameToItem_eq_resolve, resolve]
    simp only [List.foldl_cons, List.foldl_nil, if_pos h2, if_pos h1]
    simp [mergeClaim, lt_asymm hlt]

/-- C2 witness: two concrete entries overlapping on frame 1 at one frame per
second; the later-offset entry wins in both processing orders. -/
theorem frameScheduler_overlap_resolution_witness :
    frameToItem 1 [⟨["a"], 0, 2⟩, ⟨["b"], 1, 1⟩] 1 = some ⟨["b"], 1, 1⟩ ∧
    frameToItem 1 [⟨["b"], 1, 1⟩, ⟨["a"], 0, 2⟩] 1 = some ⟨["b"], 1, 1⟩ := by
  have hs1 : startFrameOf 1 ⟨["a"], 0, 2⟩ = 0 := by rw [startFrameOf]; norm_num
  have he1 : endFrameOf 1 ⟨["a"], 0, 2⟩ = 2 := by rw [endFrameOf]; norm_num [Int.ceil_eq_iff]
  have hs2 : startFrameOf 1 ⟨["b"], 1, 1⟩ = 1 := by rw [startFrameOf]; norm_num [Int.floor_eq_iff]
  have he2 : endFrameOf 1 ⟨["b"], 1, 1⟩ = 2 := by rw [endFrameOf]; norm_num [Int.ceil_eq_iff]
  refine frameScheduler_overlap_resolution 1 ⟨["a"], 0, 2⟩ ⟨["b"], 1, 1⟩ 1 ?_ ?_ ?_
  · rw [mem_frameRange, hs1, he1]
    omega
  · rw [mem_frameRange, hs2, he2]
    omega
  · norm_num

/-- C4: Frame Scheduler range computation.  With `frameDurationMs = 1000/fps`
an entry is assigned exactly the frames in
`[floor(offset/fd), ceil((offset+duration)/fd))`, `totalFrames` is
`ceil((offset+duration of the final entry)/fd)`, and the one-entry scenario
at `fps = 1` covers frame 1 only, mapped to that entry. -/
theorem frameScheduler_range_computation :
    (∀ (fd : ℚ) (it : TranscriptItem) (k : ℤ),
        k ∈ frameRange fd it ↔
          ⌊it.offset / fd⌋ ≤ k ∧ k < ⌈(it.offset + it.duration) / fd⌉) ∧
    (∀ (fd : ℚ) (ts : List TranscriptItem) (h : ts ≠ []),
        totalFramesOf fd ts = ⌈((ts.getLast h).offset + (ts.getLast h).duration) / fd⌉) ∧
    mergeTranscripts [[⟨["hello"], 0, 1000⟩], [⟨["bonjour"], 0, 1000⟩]] =
      [⟨["hello", "bonjour"], 0, 1000⟩] ∧
    totalFramesOf (frameDurationMs 1) [⟨["hello", "bonjour"], 0, 1000⟩] = 1 ∧
    frameLookup (frameToItem (frameDurationMs 1) [⟨["hello", "bonjour"], 0, 1000⟩]) 1 =
      some ⟨["hello", "bonjour"], 0, 1000⟩ ∧
    ∀ k : ℤ, k ≠ 0 → frameToItem (frameDurationMs 1) [⟨["hello", "bonjour"], 0, 1000⟩] k = none := by
  have hs : startFrameOf (frameDurationMs 1) ⟨["hello", "bonjour"], 0, 1000⟩ = 0 := by
    rw [startFrameOf]
    norm_num [frameDurationMs]
  have he : endFrameOf (frameDurationMs 1) ⟨["hello", "bonjour"], 0, 1000⟩ = 1 := by
    rw [endFrameOf]
    norm_num [frameDurationMs, Int.ceil_eq_iff]
  have hsched0 : frameToItem (frameDurationMs 1) [⟨["hello", "bonjour"], 0, 1000⟩] 0 =
      some ⟨["hello", "bonjour"], 0, 1000⟩ := by
    rw [frameToItem_eq_resolve, resolve]
    simp only [List.foldl_cons, List.foldl_nil]
    rw [if_pos (mem_frameRange.mpr (by rw [hs, he]; omega))]
    rfl
  refine ⟨fun fd it k => mem_frameRange, ?_, ?_, ?_, ?_, ?_⟩
  · intro fd ts h
    rw [totalFramesOf, totalDurationOf, List.getLast?_eq_getLast_of_ne_nil h]
  · have hslot : slotFor ⟨["hello"], 0, 1000⟩ [⟨["bonjour"], 0, 1000⟩] = "bonjour" := by
      rw [slotFor, List.find?_cons_of_pos]
      · rfl
      · rw [midContained_iff]
        norm_num [baseMidOf]
    rw [mergeTranscripts_cons]
    simp only [initMerged, List.map_cons, List.map_nil, List.headD_cons]
    simp only [addSlots, List.foldl_cons, List.foldl_nil]
    rw [hslot]
    rfl
  · rw [totalFramesOf]
    norm_num [totalDurationOf, frameDurationMs, Int.ceil_eq_iff]
  · rw [frameLookup]
    norm_num [hsched0]
  · intro k hk
    rw [frameToItem_eq_resolve]
    apply resolve_eq_none
    intro it hit
    simp only [List.mem_singleton] at hit
    subst hit
    rw [mem_frameRange, hs, he]
    omega

/-- C4 witness: the closed-form clauses applied at concrete inputs with the
hypotheses discharged. -/
theorem frameScheduler_range_computation_witness :
    totalFramesOf 1000 [⟨["x"], 0, 1000⟩] = ⌈((0 : ℚ) + 1000) / 1000⌉ ∧
    frameToItem (frameDurationMs 1) [⟨["hello", "bonjour"], 0, 1000⟩] 5 = none := by
  constructor
  · exact (frameScheduler_range_computation.2.1 1000 [⟨["x"], 0, 1000⟩] (by decide))
  · exact (frameScheduler_range_computation.2.2.2.2.2 5 (by decide))

/-- C5: Frame Pipeline Driver resume idempotence.  The progress events are
always the canonical strictly increasing sequence `1 .. totalFrames` (one
per frame, existing artifact or not), a frame whose artifact exists is never
rendered, a directory holding all artifacts yields zero Renderer
invocations, and a second run over the directory left by any first run
renders nothing and emits the identical progress sequence. -/
theorem framePipeline_resume_idempotence (transcript : List TranscriptItem) (dir : String)
    (fps : ℚ) (fs : Nat → Bool) :
    (generateFramesRun transcript dir fps fs).progress =
      (List.range (totalFramesOf (frameDurationMs fps) transcript).toNat).map
        (fun n => (n + 1, (totalFramesOf (frameDurationMs fps) transcript).toNat,
          framePath dir n)) ∧
    (∀ (n : Nat) (tl : List String), fs n = true →
        (n + 1, tl) ∉ (generateFramesRun transcript dir fps fs).renders) ∧
    ((∀ n : Nat, n < (totalFramesOf (frameDurationMs fps) transcript).toNat → fs n = true) →
        (generateFramesRun transcript dir fps fs).renders = []) ∧
    (generateFramesRun transcript dir fps
        ((generateFramesRun transcript dir fps fs).fsAfter)).renders = [] ∧
    (generateFramesRun transcript dir fps
        ((generateFramesRun transcript dir fps fs).fsAfter)).progress =
      (generateFramesRun transcript dir fps fs).progress := by
  have hrun : ∀ g : Nat → Bool, generateFramesRun transcript dir fps g =
      runFrames (frameToItem (frameDurationMs fps) transcript)
        (totalFramesOf (frameDurationMs fps) transcript).toNat dir
        (List.range (totalFramesOf (frameDurationMs fps) transcript).toNat) g :=
    fun g => rfl
  refine ⟨?_, ?_, ?_, ?_, ?_⟩
  · rw [hrun, runFrames_progress]
  · intro n tl hfs hmem
    rw [hrun, runFrames_renders_eq _ _ _ _ (List.nodup_range _)] at hmem
    obtain ⟨m, hm, heq⟩ := List.mem_map.mp hmem
    obtain ⟨hm1, hm2⟩ := List.mem_filter.mp hm
    have hmn : m = n := by
      have := congrArg Prod.fst heq
      simpa using this
    subst hmn
    rw [hfs] at hm2
    simp at hm2
  · intro hall
    rw [hrun, runFrames_renders_eq _ _ _ _ (List.nodup_range _)]
    have hfil : (List.range (totalFramesOf (frameDurationMs fps) transcript).toNat).filter
        (fun n => !fs n) = [] := by
      rw [List.filter_eq_nil_iff]
      intro a ha
      rw [hall a (List.mem_range.mp ha)]
      simp
    rw [hfil]
    rfl
  · rw [hrun, runFrames_renders_eq _ _ _ _ (List.nodup_range _)]
    have hfil : (List.range (totalFramesOf (frameDurationMs fps) transcript).toNat).filter
        (fun n => !(generateFramesRun transcript dir fps fs).fsAfter n) = [] := by
      rw [List.filter_eq_nil_iff]
      intro a ha
      rw [hrun, runFrames_fsAfter]
      simp [ha]
    rw [hfil]
    rfl
  · rw [hrun, runFrames_progress, hrun, runFrames_progress]

/-- C5 witness: a one-frame job over a directory already holding every
artifact issues zero Renderer invocations. -/
theorem framePipeline_resume_idempotence_witness :
    (generateFramesRun [⟨["a"], 0, 1000⟩] ("out") 1 (fun _ => true)).renders = [] :=
  (framePipeline_resume_idempotence [⟨["a"], 0, 1000⟩] ("out") 1 (fun _ => true)).2.2.1
    (fun _ _ => rfl)

theorem driverTextLines_some {sched : ℤ → Option TranscriptItem} {n : ℕ} {it : TranscriptItem}
    (h : sched (n : ℤ) = some it) : driverTextLines sched n = it.text := by
  unfold driverTextLines
  rw [h]

theorem driverTextLines_none {sched : ℤ → Option TranscriptItem} {n : ℕ}
    (h : sched (n : ℤ) = none) : driverTextLines sched n = [] := by
  unfold driverTextLines
  rw [h]

/-- C6: Frame coverage totality.  For every frame number `1 ≤ i ≤ totalFrames`
the schedule lookup yields either a timeline entry (whose texts become the
Renderer lines) or nothing, in which case the driver passes `[]` and the
Renderer paints the blank background — never an error. -/
theorem frameCoverage_total (transcript : List TranscriptItem) (fps : ℚ) (i : ℕ)
    (h1 : 1 ≤ i) (h2 : i ≤ (totalFramesOf (frameDurationMs fps) transcript).toNat) :
    (∃ it, frameLookup (frameToItem (frameDurationMs fps) transcript) i = some it ∧
        driverTextLines (frameToItem (frameDurationMs fps) transcript) (i - 1) = it.text) ∨
    (frameLookup (frameToItem (frameDurationMs fps) transcript) i = none ∧
        driverTextLines (frameToItem (frameDurationMs fps) transcript) (i - 1) = [] ∧
        renderFrame (driverTextLines (frameToItem (frameDurationMs fps) transcript) (i - 1)) =
          FrameImage.blank) := by
  have hcast : ((i - 1 : ℕ) : ℤ) = (i : ℤ) - 1 := by omega
  cases hv : frameToItem (frameDurationMs fps) transcript ((i : ℤ) - 1) with
  | some it =>
      left
      exact ⟨it, by rw [frameLookup]; exact hv,
        driverTextLines_some (by rw [hcast]; exact hv)⟩
  | none =>
      right
      have hd : driverTextLines (frameToItem (frameDurationMs fps) transcript) (i - 1) = [] :=
        driverTextLines_none (by rw [hcast]; exact hv)
      refine ⟨by rw [frameLookup]; exact hv, hd, ?_⟩
      rw [hd]
      rfl

/-- C6 witness: the theorem applied at the single frame of a one-entry,
one-frame-per-second job. -/
theorem frameCoverage_total_witness :
    (∃ it, frameLookup (frameToItem (frameDurationMs 1) [⟨["a"], 0, 1000⟩]) 1 = some it ∧
        driverTextLines (frameToItem (frameDurationMs 1) [⟨["a"], 0, 1000⟩]) 0 = it.text) ∨
    (frameLookup (frameToItem (frameDurationMs 1) [⟨["a"], 0, 1000⟩]) 1 = none ∧
        driverTextLines (frameToItem (frameDurationMs 1) [⟨["a"], 0, 1000⟩]) 0 = [] ∧
        renderFrame (driverTextLines (frameToItem (frameDurationMs 1) [⟨["a"], 0, 1000⟩]) 0) =
          FrameImage.blank) := by
  have htot : (totalFramesOf (frameDurationMs 1) [⟨["a"], 0, 1000⟩]).toNat = 1 := by
    rw [totalFramesOf]
    norm_num [totalDurationOf, frameDurationMs, Int.ceil_eq_iff]
  exact frameCoverage_total [⟨["a"], 0, 1000⟩] 1 1 le_rfl (le_of_eq htot.symm)

/-- In the two-entry demo timeline at one frame per second, internal frame 1
(the gap between the entries) has no schedule entry. -/
theorem blankFrame_sched_none :
    frameToItem (frameDurationMs 1)
      [⟨["hello", "bonjour"], 0, 1000⟩, ⟨["world", "monde"], 2000, 1000⟩] ((1 : ℕ) : ℤ) = none := by
  rw [frameToItem_eq_resolve]
  apply resolve_eq_none
  intro it hit
  have hs1 : startFrameOf (frameDurationMs 1) ⟨["hello", "bonjour"], 0, 1000⟩ = 0 := by
    rw [startFrameOf]
    norm_num [frameDurationMs]
  have he1 : endFrameOf (frameDurationMs 1) ⟨["hello", "bonjour"], 0, 1000⟩ = 1 := by
    rw [endFrameOf]
    norm_num [frameDurationMs, Int.ceil_eq_iff]
  have hs2 : startFrameOf (frameDurationMs 1) ⟨["world", "monde"], 2000, 1000⟩ = 2 := by
    rw [startFrameOf]
    norm_num [frameDurationMs, Int.floor_eq_iff]
  have he2 : endFrameOf (frameDurationMs 1) ⟨["world", "monde"], 2000, 1000⟩ = 3 := by
    rw [endFrameOf]
    norm_num [frameDurationMs, Int.ceil_eq_iff]
  simp only [List.mem_cons, List.mem_singleton, List.not_mem_nil, or_false] at hit
  rcases hit with h | h <;> subst h <;> rw [mem_frameRange]
  · rw [hs1, he1]
    omega
  · rw [hs2, he2]
    omega

/-- On the gap frame the driver invokes the Renderer with the empty list:
render invocation `(2, [])` occurs in the two-entry demo job. -/
theorem blankFrameRender_mem :
    ((2 : ℕ), ([] : List String)) ∈
      (generateFramesRun [⟨["hello", "bonjour"], 0, 1000⟩, ⟨["world", "monde"], 2000, 1000⟩]
        ("out") 1 (fun _ => false)).renders := by
  have hdur : totalDurationOf
      [⟨["hello", "bonjour"], 0, 1000⟩, ⟨["world", "monde"], 2000, 1000⟩] = 2000 + 1000 := rfl
  have htotN : (totalFramesOf (frameDurationMs 1)
      [⟨["hello", "bonjour"], 0, 1000⟩, ⟨["world", "monde"], 2000, 1000⟩]).toNat = 3 := by
    have h3 : totalFramesOf (frameDurationMs 1)
        [⟨["hello", "bonjour"], 0, 1000⟩, ⟨["world", "monde"], 2000, 1000⟩] = 3 := by
      rw [totalFramesOf, hdur]
      norm_num [frameDurationMs, Int.ceil_eq_iff]
    rw [h3]
    rfl
  have hrun : generateFramesRun
      [⟨["hello", "bonjour"], 0, 1000⟩, ⟨["world", "monde"], 2000, 1000⟩]
      ("out") 1 (fun _ => false) =
      runFrames (frameToItem (frameDurationMs 1)
          [⟨["hello", "bonjour"], 0, 1000⟩, ⟨["world", "monde"], 2000, 1000⟩])
        (totalFramesOf (frameDurationMs 1)
          [⟨["hello", "bonjour"], 0, 1000⟩, ⟨["world", "monde"], 2000, 1000⟩]).toNat
        ("out")
        (List.range (totalFramesOf (frameDurationMs 1)
          [⟨["hello", "bonjour"], 0, 1000⟩, ⟨["world", "monde"], 2000, 1000⟩]).toNat)
        (fun _ => false) := rfl
  rw [hrun, htotN, runFrames_renders_eq _ _ _ _ (List.nodup_range 3)]
  refine List.mem_map.mpr ⟨1, List.mem_filter.mpr ⟨by decide, rfl⟩, ?_⟩
  rw [driverTextLines_none blankFrame_sched_none]

/-- C7 counterexample: in a two-language job the driver renders the gap
frame 2 with the empty list, not with one (empty) entry per participating
language — refuting the claim at a concrete input. -/
theorem rendererInputShape_counterexample :
    ¬ (∀ p ∈ (generateFramesRun
        [⟨["hello", "bonjour"], 0, 1000⟩, ⟨["world", "monde"], 2000, 1000⟩]
        ("out") 1 (fun _ => false)).renders, p.2.length = 2) := by
  intro hall
  have h := hall ((2 : ℕ), ([] : List String)) blankFrameRender_mem
  simp at h

/-- C7 (amended): Renderer input shape.  Every Renderer invocation carries
either the texts of the frame's active timeline entry (one slot per
participating language) or the empty list when the frame has no active
entry. -/
theorem rendererInputShape (transcript : List TranscriptItem) (dir : String) (fps : ℚ)
    (fs : Nat → Bool) (p : Nat × List String)
    (hp : p ∈ (generateFramesRun transcript dir fps fs).renders) :
    ∃ n : Nat, n < (totalFramesOf (frameDurationMs fps) transcript).toNat ∧ p.1 = n + 1 ∧
      ((∃ it, frameToItem (frameDurationMs fps) transcript (n : ℤ) = some it ∧ p.2 = it.text) ∨
        (frameToItem (frameDurationMs fps) transcript (n : ℤ) = none ∧ p.2 = [])) := by
  have hrun : generateFramesRun transcript dir fps fs =
      runFrames (frameToItem (frameDurationMs fps) transcript)
        (totalFramesOf (frameDurationMs fps) transcript).toNat dir
        (List.range (totalFramesOf (frameDurationMs fps) transcript).toNat) fs := rfl
  rw [hrun, runFrames_renders_eq _ _ _ _ (List.nodup_range _)] at hp
  obtain ⟨n, hn, heq⟩ := List.mem_map.mp hp
  obtain ⟨hn1, _⟩ := List.mem_filter.mp hn
  refine ⟨n, List.mem_range.mp hn1, ?_, ?_⟩
  · rw [← heq]
  · cases hv : frameToItem (frameDurationMs fps) transcript (n : ℤ) with
    | some it =>
        refine Or.inl ⟨it, rfl, ?_⟩
        rw [← heq]
        exact driverTextLines_some hv
    | none =>
        refine Or.inr ⟨rfl, ?_⟩
        rw [← heq]
        exact driverTextLines_none hv

/-- C7 witness: the amended theorem applied to the gap-frame invocation of
the two-entry demo job. -/
theorem rendererInputShape_witness :
    ∃ n : Nat, n < (totalFramesOf (frameDurationMs 1)
        [⟨["hello", "bonjour"], 0, 1000⟩, ⟨["world", "monde"], 2000, 1000⟩]).toNat ∧
      ((2 : ℕ), ([] : List String)).1 = n + 1 ∧
      ((∃ it, frameToItem (frameDurationMs 1)
          [⟨["hello", "bonjour"], 0, 1000⟩, ⟨["world", "monde"], 2000, 1000⟩] (n : ℤ) = some it ∧
          ((2 : ℕ), ([] : List String)).2 = it.text) ∨
        (frameToItem (frameDurationMs 1)
          [⟨["hello", "bonjour"], 0, 1000⟩, ⟨["world", "monde"], 2000, 1000⟩] (n : ℤ) = none ∧
          ((2 : ℕ), ([] : List String)).2 = [])) :=
  rendererInputShape
    [⟨["hello", "bonjour"], 0, 1000⟩, ⟨["world", "monde"], 2000, 1000⟩]
    ("out") 1 (fun _ => false) ((2 : ℕ), ([] : List String)) blankFrameRender_mem

/-- C8 counterexample: a header with a single-digit hour field is NOT
recognized — the regex demands two hour digits — so a document whose only
header has a one-digit hour parses to the empty track instead of producing
the claimed cue. -/
theorem cueParserHeader_counterexample :
    findHeader (trimChars ("0:00:01.000 --> 0:00:05.000").data) = none ∧
    parseVTT ("0:00:01.000 --> 0:00:05.000\nhello\n") = [] := by
  constructor
  · decide
  · decide

/-- C8 (amended): Cue Parser header recognition.  The parser recognizes a
time-range header of the form `HH:MM:SS.mmm --> HH:MM:SS.mmm` with exactly
two hour digits (a single-digit hour field is not recognized), and lines
not matching the header form are skipped until the next header is found. -/
theorem cueParserHeader_recognition :
    parseVTT ("00:00:01.000 --> 00:00:05.000\nhello\n") =
      [{ text := ["hello"], offset := 1000, duration := 4000 }] ∧
    findHeader (trimChars ("0:00:01.000 --> 0:00:05.000").data) = none ∧
    (∀ (pre lines : List (List Char)), (∀ l ∈ pre, findHeader (trimChars l) = none) →
        parseVTTGo (pre ++ lines) none = parseVTTGo lines none) := by
  refine ⟨by decide, by decide, parseVTTGo_append_no_header⟩

/-- C8 witness: the skip clause applied to one concrete non-header line. -/
theorem cueParserHeader_recognition_witness :
    parseVTTGo ([['j', 'u', 'n', 'k']] ++ []) none = parseVTTGo [] none :=
  cueParserHeader_recognition.2.2 [['j', 'u', 'n', 'k']] [] (by decide)

/-- C9: Cue Parser degenerate inputs.  A document with no recognizable
header yields the empty track (the parser is total, so it never errors); a
block whose text is empty after tag stripping is dropped, so a document with
two header blocks but one empty body yields a single cue. -/
theorem cueParser_degenerate :
    (∀ doc : String, (∀ l ∈ splitLines doc.data, findHeader (trimChars l) = none) →
        parseVTT doc = []) ∧
    parseVTT ("00:00:01.000 --> 00:00:02.000\n<b></b>\n") = [] ∧
    parseVTT ("00:00:01.000 --> 00:00:02.000\n<b></b>\n\n00:00:03.000 --> 00:00:04.000\nworld\n") =
      [{ text := ["world"], offset := 3000, duration := 1000 }] := by
  refine ⟨?_, by decide, by decide⟩
  intro doc h
  rw [parseVTT]
  exact parseVTTGo_eq_nil_of_no_header _ h

/-- C9 witness: the no-valid-block clause applied to a concrete headerless
document. -/
theorem cueParser_degenerate_witness :
    parseVTT ("WEBVTT\njunk\n") = [] :=
  cueParser_degenerate.1 ("WEBVTT\njunk\n") (by decide)

/-- C10 counterexample: the entry with `offsetMs = 1500`, `durationMs = -400`
at `frameDurationMs = 1000` is assigned frame 1
(`floor(1.5) = 1 < ceil(1.1) = 2`), refuting "entries with negative duration
are assigned to no frame". -/
theorem zeroDurationHandling_counterexample :
    frameRange (1000 : ℚ) ⟨["x"], 1500, -400⟩ = [1] ∧
    frameRange (1000 : ℚ) ⟨["x"], 1500, -400⟩ ≠ [] := by
  have hs : startFrameOf 1000 ⟨["x"], 1500, -400⟩ = 1 := by
    rw [startFrameOf]
    norm_num [Int.floor_eq_iff]
  have he : endFrameOf 1000 ⟨["x"], 1500, -400⟩ = 2 := by
    rw [endFrameOf]
    norm_num [Int.ceil_eq_iff]
  have h : frameRange (1000 : ℚ) ⟨["x"], 1500, -400⟩ = [1] := by
    rw [frameRange_eq_single 1000 _ (by rw [hs, he]; rfl), hs]
  refine ⟨h, ?_⟩
  rw [h]
  simp

/-- C10 (amended): zero- and negative-duration handling.  A zero-duration
entry is assigned exactly frame `floor(offset/fd)` when the offset is not an
integer multiple of `fd` and no frame when it is; a negative-duration entry
is assigned the single frame `floor(offset/fd)` when
`offset + duration > fd * floor(offset/fd)` still holds, and no frame
otherwise. -/
theorem zeroDurationHandling (fd : ℚ) (it : TranscriptItem) (hfd : 0 < fd) :
    (it.duration = 0 →
      ((¬ ∃ z : ℤ, it.offset = z * fd) → frameRange fd it = [⌊it.offset / fd⌋]) ∧
      ((∃ z : ℤ, it.offset = z * fd) → frameRange fd it = [])) ∧
    (it.duration < 0 →
      (fd * ⌊it.offset / fd⌋ < it.offset + it.duration →
          frameRange fd it = [⌊it.offset / fd⌋]) ∧
      (it.offset + it.duration ≤ fd * ⌊it.offset / fd⌋ → frameRange fd it = [])) := by
  have hfd0 : fd ≠ 0 := ne_of_gt hfd
  constructor
  · intro hd0
    constructor
    · intro hnm
      have hne : (⌊it.offset / fd⌋ : ℚ) ≠ it.offset / fd := by
        intro hEq
        exact hnm ⟨⌊it.offset / fd⌋, (div_eq_iff hfd0).mp hEq.symm⟩
      have hlt : (⌊it.offset / fd⌋ : ℚ) < it.offset / fd :=
        lt_of_le_of_ne (Int.floor_le _) hne
      have hceil : ⌊it.offset / fd⌋ < ⌈it.offset / fd⌉ := Int.lt_ceil.mpr hlt
      have hle : ⌈it.offset / fd⌉ ≤ ⌊it.offset / fd⌋ + 1 := Int.ceil_le_floor_add_one _
      have hEnd : endFrameOf fd it = ⌈it.offset / fd⌉ := by
        rw [endFrameOf, hd0, add_zero]
      rw [frameRange_eq_single fd it (by rw [hEnd, startFrameOf]; omega)]
      rfl
    · rintro ⟨z, hz⟩
      have hr : it.offset / fd = (z : ℚ) := by
        rw [hz, mul_div_cancel_right₀ _ hfd0]
      apply frameRange_eq_nil
      rw [endFrameOf, startFrameOf, hd0, add_zero, hr, Int.floor_intCast, Int.ceil_intCast]
  · intro hdneg
    constructor
    · intro hgt
      have h1 : (⌊it.offset / fd⌋ : ℚ) < (it.offset + it.duration) / fd := by
        rw [lt_div_iff₀ hfd]
        linarith
      have h2 : ⌊it.offset / fd⌋ < ⌈(it.offset + it.duration) / fd⌉ := Int.lt_ceil.mpr h1
      have h3 : (it.offset + it.duration) / fd ≤ it.offset / fd :=
        (div_le_div_iff_of_pos_right hfd).mpr (by linarith)
      have h4 : ⌈(it.offset + it.duration) / fd⌉ ≤ ⌈it.offset / fd⌉ := Int.ceil_mono h3
      have h5 := Int.ceil_le_floor_add_one (it.offset / fd)
      rw [frameRange_eq_single fd it (by rw [endFrameOf, startFrameOf]; omega)]
      rfl
    · intro hle
      apply frameRange_eq_nil
      have h1 : (it.offset + it.duration) / fd ≤ (⌊it.offset / fd⌋ : ℚ) := by
        rw [div_le_iff₀ hfd]
        linarith
      have h2 : ⌈(it.offset + it.duration) / fd⌉ ≤ ⌊it.offset / fd⌋ := Int.ceil_le.mpr h1
      rw [endFrameOf, startFrameOf]
      exact h2

/-- C10 witness: the amended theorem applied at two concrete zero-duration
entries, one off-grid (one frame) and one on-grid (no frame). -/
theorem zeroDurationHandling_witness :
    frameRange (1000 : ℚ) ⟨[], 1500, 0⟩ = [⌊(1500 : ℚ) / 1000⌋] ∧
    frameRange (1000 : ℚ) ⟨[], 2000, 0⟩ = [] := by
  constructor
  · exact ((zeroDurationHandling 1000 ⟨[], 1500, 0⟩ (by norm_num)).1 rfl).1 (by
      rintro ⟨z, hz⟩
      have hz2 : (1500 : ℚ) = z * 1000 := hz
      have h2 : (2 : ℚ) * z = 3 := by linarith
      have h3 : (2 * z : ℤ) = 3 := by exact_mod_cast h2
      omega)
  · exact ((zeroDurationHandling 1000 ⟨[], 2000, 0⟩ (by norm_num)).1 rfl).2 ⟨2, by norm_num⟩

end Engine
